import Mathlib

/-!
# Verification of the rust-cursor-bench record encoder and byte sinks

Shallow embedding of `src/src/lib.rs` and the sink usage in
`src/benches/cursor_bench.rs`.

* `MyStruct` and `MyStruct.new` mirror the record type and its constructor
  (`lib.rs` lines 13-32).  Rust machine integers are modelled as `Nat` with
  explicit `% 2 ^ w` where wrapping matters (release-mode wrapping
  semantics): `ii as u64 + 1` becomes `(ii % 2 ^ 64 + 1) % 2 ^ 64`, and
  `ii & 1 != 0` becomes `ii % 2 != 0` (bitwise AND with 1 is mod 2).
* `be_coder()` configures bincode with big-endian byte order, fixed-size
  integer encoding and trailing bytes allowed.  Under those options
  `serialize_into` emits each struct field in declaration order as its
  fixed-width big-endian bytes (bool as one byte 0/1), each field pushed to
  the sink with `Write::write_all`.  `beBytes`, `boolByte` and
  `fieldChunks` embed exactly that byte production.
* The sinks: `SliceCursor` models `Cursor<&mut [u8]>` (fixed capacity,
  `write` copies what fits and a subsequent zero-length write makes
  `write_all` fail with `WriteZero`); `WriterVec` models the library's
  `WriterVec` (`Vec` + `extend_from_slice`, infallible); `CursorVec`
  models `Cursor<Vec<u8>>` (overwrite-then-extend at the position,
  infallible).
* `serialize_it` unwraps the bincode result, so a failed write panics in
  the caller.  The slice-sink embedding `serialize_it_slice` returns
  `Option`, where `none` models that panic; `Except`-valued
  `serializeIntoSlice` is the inner `serialize_into`, whose `error`
  payload is the sink state left behind by the failing write (the `&mut`
  sink keeps its mutations when the error propagates).
-/

namespace CursorBench

/-- Fixed-width big-endian byte production: `beBytes w x` is the `w`-byte
big-endian encoding of `x % 2 ^ (8 * w)`, most significant byte first.
This is what bincode's fixint big-endian option emits for `uN` fields. -/
def beBytes : Nat → Nat → List Nat
  | 0, _ => []
  | w + 1, x => (x / 2 ^ (8 * w)) % 256 :: beBytes w x

/-- bincode serializes `bool` as a single byte, 0x00 for false, 0x01 for
true. -/
def boolByte (b : Bool) : Nat := if b then 1 else 0

/-- The record type of `lib.rs`: `a: u64, b: u32, c: u8, d: bool, e: u16`.
Field values are `Nat`s; the Rust width bounds appear as hypotheses where
a claim needs them. -/
structure MyStruct where
  a : Nat
  b : Nat
  c : Nat
  d : Bool
  e : Nat
deriving DecidableEq

/-- `MyStruct::new(ii)` from `lib.rs`:
`a = ii as u64 + 1`, `b = ii as u32 + 2`, `c = ii as u8 + 3`,
`d = ii & 1 != 0`, `e = 0xAA55`, with release-mode wrapping arithmetic. -/
def MyStruct.new (ii : Nat) : MyStruct where
  a := (ii % 2 ^ 64 + 1) % 2 ^ 64
  b := (ii % 2 ^ 32 + 2) % 2 ^ 32
  c := (ii % 2 ^ 8 + 3) % 2 ^ 8
  d := ii % 2 != 0
  e := 0xAA55

/-- The byte chunks `serialize_into` pushes to the sink, one `write_all`
per field, in declaration order. -/
def fieldChunks (s : MyStruct) : List (List Nat) :=
  [beBytes 8 s.a, beBytes 4 s.b, beBytes 1 s.c, [boolByte s.d], beBytes 2 s.e]

/-- The full encoded byte sequence of one record: the field chunks
concatenated, nothing else (no length prefix, no tag, no padding). -/
def encodeMyStruct (s : MyStruct) : List Nat := (fieldChunks s).flatten

/-- `Cursor<&mut [u8]>`: a fixed-length buffer and a write position.  The
buffer length never changes; `pos` only advances. -/
structure SliceCursor where
  buf : List Nat
  pos : Nat
deriving DecidableEq

/-- Overwrite `buf` at position `p` with `data` (the slice-cursor write
primitive; meaningful when `p + data.length ≤ buf.length`). -/
def writeAt (buf : List Nat) (p : Nat) (data : List Nat) : List Nat :=
  buf.take p ++ data ++ buf.drop (p + data.length)

/-- `write_all` on `Cursor<&mut [u8]>`: the cursor's `write` copies
`min (data.length) (remaining)` bytes and advances; when the data does not
fit, the first write fills the buffer to capacity and the retry returns
`Ok(0)`, which `write_all` turns into a `WriteZero` error.  The `error`
payload is the mutated sink state at the failure (prior bytes intact, the
fitting prefix of `data` written, position at capacity). -/
def SliceCursor.writeAll (s : SliceCursor) (data : List Nat) :
    Except SliceCursor SliceCursor :=
  if data.length ≤ s.buf.length - s.pos then
    .ok ⟨writeAt s.buf s.pos data, s.pos + data.length⟩
  else
    .error ⟨writeAt s.buf s.pos (data.take (s.buf.length - s.pos)), s.buf.length⟩

/-- Serialize a list of chunks into a slice cursor, stopping at the first
failed `write_all` (bincode propagates the first I/O error). -/
def writeChunksSlice : SliceCursor → List (List Nat) → Except SliceCursor SliceCursor
  | s, [] => .ok s
  | s, c :: cs =>
    match s.writeAll c with
    | .ok s2 => writeChunksSlice s2 cs
    | .error s2 => .error s2

/-- `be_coder().serialize_into(sink, item)` for a slice-cursor sink:
writes the five field chunks in order. -/
def serializeIntoSlice (item : MyStruct) (s : SliceCursor) :
    Except SliceCursor SliceCursor :=
  writeChunksSlice s (fieldChunks item)

/-- `serialize_it` for a slice-cursor sink.  The Rust function unwraps the
bincode result, so an encoding error panics instead of reaching the
caller: `none` models that panic. -/
def serialize_it_slice (item : MyStruct) (s : SliceCursor) : Option SliceCursor :=
  (serializeIntoSlice item s).toOption

/-- The library's `WriterVec(Vec<u8>)`. -/
structure WriterVec where
  data : List Nat
deriving DecidableEq

/-- `Write for WriterVec`: `extend_from_slice`, always succeeds, returns
`Ok(buf.len())`. -/
def WriterVec.write (w : WriterVec) (buf : List Nat) : WriterVec :=
  ⟨w.data ++ buf⟩

/-- `serialize_it` into a `WriterVec`: every `write_all` succeeds, so this
is the plain fold of the field chunks. -/
def serialize_it_wv (item : MyStruct) (w : WriterVec) : WriterVec :=
  (fieldChunks item).foldl WriterVec.write w

/-- `Cursor<Vec<u8>>`: growable buffer plus position. -/
structure CursorVec where
  data : List Nat
  pos : Nat
deriving DecidableEq

/-- `Write for Cursor<Vec<u8>>`: pad with zeros up to the position if it
lies past the end, overwrite the overlap, extend with the remainder,
advance the position; always succeeds. -/
def CursorVec.write (c : CursorVec) (buf : List Nat) : CursorVec :=
  let padded := c.data ++ List.replicate (c.pos - c.data.length) 0
  ⟨padded.take c.pos ++ buf ++ padded.drop (c.pos + buf.length),
   c.pos + buf.length⟩

/-- `serialize_it` into a `Cursor<Vec<u8>>`: every write succeeds. -/
def serialize_it_cv (item : MyStruct) (c : CursorVec) : CursorVec :=
  (fieldChunks item).foldl CursorVec.write c

/-- The benchmark loop (`do_writervec`): serialize a sequence of records
into one `WriterVec`, one `serialize_it` call per record. -/
def writeRecordsWV : List MyStruct → WriterVec → WriterVec
  | [], w => w
  | r :: rs, w => writeRecordsWV rs (serialize_it_wv r w)

/-- The benchmark loop (`do_cursor_vec`): serialize a sequence of records
into one `Cursor<Vec<u8>>`, one `serialize_it` call per record. -/
def writeRecordsCV : List MyStruct → CursorVec → CursorVec
  | [], c => c
  | r :: rs, c => writeRecordsCV rs (serialize_it_cv r c)

/-- The benchmark loop (`do_cursor_slice`): serialize a sequence of
records into one `Cursor<&mut [u8]>`; the first panic (failed unwrap)
aborts the loop, modelled as error propagation. -/
def writeRecordsSlice : List MyStruct → SliceCursor → Except SliceCursor SliceCursor
  | [], s => .ok s
  | r :: rs, s =>
    match serializeIntoSlice r s with
    | .ok s2 => writeRecordsSlice rs s2
    | .error s2 => .error s2

/-- Concatenated encodings of a record sequence. -/
def encodeList (recs : List MyStruct) : List Nat :=
  (recs.map encodeMyStruct).flatten

end CursorBench

namespace CursorBench

/-! ## Basic length and shape lemmas -/

theorem beBytes_length (w x : Nat) : (beBytes w x).length = w := by
  induction w generalizing x with
  | zero => rfl
  | succ w ih => simp [beBytes, ih]

theorem encodeMyStruct_eq (s : MyStruct) :
    encodeMyStruct s =
      beBytes 8 s.a ++ (beBytes 4 s.b ++ (beBytes 1 s.c ++
        ([boolByte s.d] ++ beBytes 2 s.e))) := by
  simp [encodeMyStruct, fieldChunks]

theorem encodeMyStruct_length (s : MyStruct) : (encodeMyStruct s).length = 16 := by
  simp [encodeMyStruct_eq, beBytes_length]

/-- Total byte count of a chunk list. -/
def chunksLen (cs : List (List Nat)) : Nat := (cs.map List.length).sum

theorem chunksLen_fieldChunks (s : MyStruct) : chunksLen (fieldChunks s) = 16 := by
  simp [chunksLen, fieldChunks, beBytes_length]

/-! ## Big-endian value recovery -/

/-- Big-endian interpretation of a byte list, most significant byte
first (the decoding side of the round-trip property; the repository has
no decoder, this is the standard big-endian value of the bytes). -/
def beValue (bytes : List Nat) : Nat := bytes.foldl (fun acc b => acc * 256 + b) 0

theorem beValue_foldl (w x acc : Nat) :
    List.foldl (fun acc b => acc * 256 + b) acc (beBytes w x) =
      acc * 2 ^ (8 * w) + x % 2 ^ (8 * w) := by
  induction w generalizing acc with
  | zero => simp [beBytes, Nat.mod_one]
  | succ w ih =>
      have hpow : (2 : Nat) ^ (8 * (w + 1)) = 2 ^ (8 * w) * 256 := by
        rw [Nat.mul_add, Nat.pow_add]
      have hsplit : x % (2 ^ (8 * w) * 256) =
          x % 2 ^ (8 * w) + 2 ^ (8 * w) * (x / 2 ^ (8 * w) % 256) := Nat.mod_mul
      simp only [beBytes, List.foldl_cons, ih, hpow, hsplit]
      ring

theorem beValue_beBytes (w x : Nat) : beValue (beBytes w x) = x % 2 ^ (8 * w) := by
  simpa using beValue_foldl w x 0

end CursorBench

namespace CursorBench

/-! ## Slice-cursor write characterization -/

theorem writeAll_ok (done rest c : List Nat) (h : c.length ≤ rest.length) :
    SliceCursor.writeAll ⟨done ++ rest, done.length⟩ c =
      .ok ⟨(done ++ c) ++ rest.drop c.length, (done ++ c).length⟩ := by
  have hcond : c.length ≤ (done ++ rest).length - done.length := by
    simp only [List.length_append]
    omega
  simp only [SliceCursor.writeAll, if_pos hcond, writeAt]
  congr 1
  have hdrop : (done ++ rest).drop (done.length + c.length) = rest.drop c.length := by
    rw [List.drop_append_eq_append_drop]
    simp [List.drop_eq_nil_of_le, Nat.add_sub_cancel_left]
  rw [List.take_left, hdrop]
  simp [List.append_assoc]

theorem writeAll_err (done rest c : List Nat) (h : rest.length < c.length) :
    SliceCursor.writeAll ⟨done ++ rest, done.length⟩ c =
      .error ⟨done ++ c.take rest.length, done.length + rest.length⟩ := by
  have hrem : (done ++ rest).length - done.length = rest.length := by
    simp only [List.length_append]
    omega
  have hcond : ¬ c.length ≤ (done ++ rest).length - done.length := by
    omega
  have hlen : (c.take rest.length).length = rest.length := by
    simp only [List.length_take]
    omega
  have hdrop : (done ++ rest).drop (done.length + (c.take rest.length).length) = [] := by
    apply List.drop_eq_nil_of_le
    simp only [List.length_append, hlen]
    omega
  simp only [SliceCursor.writeAll, writeAt, hrem]
  rw [if_neg (show ¬ c.length ≤ rest.length by omega)]
  simp only [Except.error.injEq, SliceCursor.mk.injEq]
  constructor
  · rw [List.take_left, hdrop]
    simp
  · simp

theorem writeChunksSlice_ok (chunks : List (List Nat)) (done rest : List Nat)
    (h : chunksLen chunks ≤ rest.length) :
    writeChunksSlice ⟨done ++ rest, done.length⟩ chunks =
      .ok ⟨done ++ chunks.flatten ++ rest.drop (chunksLen chunks),
           done.length + chunksLen chunks⟩ := by
  induction chunks generalizing done rest with
  | nil => simp [writeChunksSlice, chunksLen]
  | cons c cs ih =>
      have hlen : chunksLen (c :: cs) = c.length + chunksLen cs := by
        simp [chunksLen]
      have hc : c.length ≤ rest.length := by omega
      rw [writeChunksSlice, writeAll_ok done rest c hc]
      have hcs : chunksLen cs ≤ (rest.drop c.length).length := by
        simp only [List.length_drop]
        omega
      dsimp only
      rw [ih (done ++ c) (rest.drop c.length) hcs]
      simp only [Except.ok.injEq, SliceCursor.mk.injEq]
      constructor
      · rw [List.drop_drop]
        simp only [List.append_assoc, List.flatten_cons, hlen]
      · simp only [List.length_append, hlen]
        omega

theorem writeChunksSlice_err (chunks : List (List Nat)) (done rest : List Nat)
    (h : rest.length < chunksLen chunks) :
    writeChunksSlice ⟨done ++ rest, done.length⟩ chunks =
      .error ⟨done ++ chunks.flatten.take rest.length,
              done.length + rest.length⟩ := by
  induction chunks generalizing done rest with
  | nil =>
      exfalso
      simp [chunksLen] at h
  | cons c cs ih =>
      have hlen : chunksLen (c :: cs) = c.length + chunksLen cs := by
        simp [chunksLen]
      by_cases hc : c.length ≤ rest.length
      · rw [writeChunksSlice, writeAll_ok done rest c hc]
        have hcs : (rest.drop c.length).length < chunksLen cs := by
          simp only [List.length_drop]
          omega
        dsimp only
        rw [ih (done ++ c) (rest.drop c.length) hcs]
        simp only [Except.error.injEq, SliceCursor.mk.injEq]
        constructor
        · have htake : (c ++ cs.flatten).take rest.length =
              c ++ cs.flatten.take (rest.length - c.length) := by
            rw [List.take_append_eq_append_take, List.take_of_length_le hc]
          simp only [List.flatten_cons, htake, List.length_drop,
            List.append_assoc]
        · simp only [List.length_append, List.length_drop]
          omega
      · push_neg at hc
        rw [writeChunksSlice, writeAll_err done rest c hc]
        simp only [Except.error.injEq, SliceCursor.mk.injEq]
        constructor
        · rw [List.flatten_cons, List.take_append_of_le_length (by omega)]
        · trivial

end CursorBench

namespace CursorBench

/-! ## One record into a slice cursor: success and failure -/

theorem serializeIntoSlice_ok (r : MyStruct) (done rest : List Nat)
    (h : 16 ≤ rest.length) :
    serializeIntoSlice r ⟨done ++ rest, done.length⟩ =
      .ok ⟨done ++ encodeMyStruct r ++ rest.drop 16, done.length + 16⟩ := by
  rw [serializeIntoSlice,
    writeChunksSlice_ok _ _ _ (by rw [chunksLen_fieldChunks]; exact h),
    chunksLen_fieldChunks]
  rfl

theorem serializeIntoSlice_err (r : MyStruct) (done rest : List Nat)
    (h : rest.length < 16) :
    serializeIntoSlice r ⟨done ++ rest, done.length⟩ =
      .error ⟨done ++ (encodeMyStruct r).take rest.length,
              done.length + rest.length⟩ := by
  rw [serializeIntoSlice,
    writeChunksSlice_err _ _ _ (by rw [chunksLen_fieldChunks]; exact h)]
  rfl

/-- Failure characterization for an arbitrary slice-cursor state: with
fewer than 16 bytes of remaining space, `serialize_into` fails, having
filled the remaining space with the fitting prefix of the record's
encoding and moved the position to the end of the buffer. -/
theorem serializeIntoSlice_err_state (r : MyStruct) (s : SliceCursor)
    (hp : s.pos ≤ s.buf.length) (h : s.buf.length < s.pos + 16) :
    serializeIntoSlice r s =
      .error ⟨s.buf.take s.pos ++ (encodeMyStruct r).take (s.buf.length - s.pos),
              s.buf.length⟩ := by
  obtain ⟨buf, p⟩ := s
  simp only at hp h ⊢
  have hlen : (buf.take p).length = p := by
    simp only [List.length_take]
    omega
  have hsplit : (⟨buf, p⟩ : SliceCursor) =
      ⟨buf.take p ++ buf.drop p, (buf.take p).length⟩ := by
    rw [List.take_append_drop, hlen]
  rw [hsplit, serializeIntoSlice_err r _ _ (by simp only [List.length_drop]; omega)]
  simp only [Except.error.injEq, SliceCursor.mk.injEq, hlen, List.length_drop]
  constructor
  · trivial
  · omega

/-- Success characterization for an arbitrary slice-cursor state. -/
theorem serializeIntoSlice_ok_state (r : MyStruct) (s : SliceCursor)
    (h : s.pos + 16 ≤ s.buf.length) :
    serializeIntoSlice r s =
      .ok ⟨s.buf.take s.pos ++ encodeMyStruct r ++ s.buf.drop (s.pos + 16),
           s.pos + 16⟩ := by
  obtain ⟨buf, p⟩ := s
  simp only at h ⊢
  have hlen : (buf.take p).length = p := by
    simp only [List.length_take]
    omega
  have hsplit : (⟨buf, p⟩ : SliceCursor) =
      ⟨buf.take p ++ buf.drop p, (buf.take p).length⟩ := by
    rw [List.take_append_drop, hlen]
  rw [hsplit, serializeIntoSlice_ok r _ _ (by simp only [List.length_drop]; omega)]
  simp only [Except.ok.injEq, SliceCursor.mk.injEq, hlen, List.drop_drop]

/-! ## WriterVec and Cursor-of-Vec characterization -/

theorem serialize_it_wv_eq (r : MyStruct) (w : WriterVec) :
    serialize_it_wv r w = ⟨w.data ++ encodeMyStruct r⟩ := by
  simp [serialize_it_wv, fieldChunks, WriterVec.write, encodeMyStruct,
    List.append_assoc]

theorem cursorVec_write_atEnd (v c : List Nat) :
    CursorVec.write ⟨v, v.length⟩ c = ⟨v ++ c, v.length + c.length⟩ := by
  simp only [CursorVec.write, Nat.sub_self, List.replicate, List.append_nil,
    List.take_length]
  rw [List.drop_eq_nil_of_le (by simp)]
  simp

theorem cursorVec_fold (chunks : List (List Nat)) (v : List Nat) :
    chunks.foldl CursorVec.write ⟨v, v.length⟩ =
      ⟨v ++ chunks.flatten, v.length + chunksLen chunks⟩ := by
  induction chunks generalizing v with
  | nil => simp [chunksLen]
  | cons c cs ih =>
      rw [List.foldl_cons, cursorVec_write_atEnd]
      have hpos : (⟨v ++ c, v.length + c.length⟩ : CursorVec) =
          ⟨v ++ c, (v ++ c).length⟩ := by
        simp
      rw [hpos, ih (v ++ c)]
      simp only [CursorVec.mk.injEq, List.append_assoc, List.flatten_cons,
        List.length_append]
      constructor
      · trivial
      · simp [chunksLen]
        omega

theorem serialize_it_cv_eq (r : MyStruct) (v : List Nat) :
    serialize_it_cv r ⟨v, v.length⟩ = ⟨v ++ encodeMyStruct r, v.length + 16⟩ := by
  rw [serialize_it_cv, cursorVec_fold, chunksLen_fieldChunks]
  rfl

/-! ## Record sequences -/

theorem encodeList_cons (r : MyStruct) (rs : List MyStruct) :
    encodeList (r :: rs) = encodeMyStruct r ++ encodeList rs := by
  simp [encodeList]

theorem encodeList_append (xs ys : List MyStruct) :
    encodeList (xs ++ ys) = encodeList xs ++ encodeList ys := by
  simp [encodeList]

theorem encodeList_length (recs : List MyStruct) :
    (encodeList recs).length = 16 * recs.length := by
  induction recs with
  | nil => rfl
  | cons r rs ih =>
      simp only [encodeList_cons, List.length_append, encodeMyStruct_length, ih,
        List.length_cons]
      ring

theorem writeRecordsWV_eq (recs : List MyStruct) (w : WriterVec) :
    writeRecordsWV recs w = ⟨w.data ++ encodeList recs⟩ := by
  induction recs generalizing w with
  | nil => simp [writeRecordsWV, encodeList]
  | cons r rs ih =>
      rw [writeRecordsWV, serialize_it_wv_eq, ih]
      simp [encodeList_cons, List.append_assoc]

theorem writeRecordsCV_eq (recs : List MyStruct) (v : List Nat) :
    writeRecordsCV recs ⟨v, v.length⟩ =
      ⟨v ++ encodeList recs, v.length + 16 * recs.length⟩ := by
  induction recs generalizing v with
  | nil => simp [writeRecordsCV, encodeList]
  | cons r rs ih =>
      have hpos : (⟨v ++ encodeMyStruct r, v.length + 16⟩ : CursorVec) =
          ⟨v ++ encodeMyStruct r, (v ++ encodeMyStruct r).length⟩ := by
        simp [encodeMyStruct_length]
      rw [writeRecordsCV, serialize_it_cv_eq, hpos, ih]
      simp only [CursorVec.mk.injEq, List.append_assoc, encodeList_cons,
        List.length_append, encodeMyStruct_length, List.length_cons]
      constructor
      · trivial
      · ring

theorem writeRecordsSlice_ok (recs : List MyStruct) (done rest : List Nat)
    (h : 16 * recs.length ≤ rest.length) :
    writeRecordsSlice recs ⟨done ++ rest, done.length⟩ =
      .ok ⟨done ++ encodeList recs ++ rest.drop (16 * recs.length),
           done.length + 16 * recs.length⟩ := by
  induction recs generalizing done rest with
  | nil => simp [writeRecordsSlice, encodeList]
  | cons r rs ih =>
      have hr : 16 ≤ rest.length := by
        simp only [List.length_cons] at h
        omega
      rw [writeRecordsSlice, serializeIntoSlice_ok r done rest hr]
      dsimp only
      have h2 : done.length + 16 = (done ++ encodeMyStruct r).length := by
        simp [encodeMyStruct_length]
      rw [show (⟨done ++ encodeMyStruct r ++ rest.drop 16, done.length + 16⟩ :
            SliceCursor) =
          ⟨done ++ encodeMyStruct r ++ rest.drop 16,
           (done ++ encodeMyStruct r).length⟩ from by rw [h2]]
      rw [ih (done ++ encodeMyStruct r) (rest.drop 16)
        (by simp only [List.length_drop, List.length_cons] at h ⊢; omega)]
      simp only [Except.ok.injEq, SliceCursor.mk.injEq, List.drop_drop,
        List.append_assoc, encodeList_cons, List.length_append,
        encodeMyStruct_length, List.length_cons]
      constructor
      · rw [show 16 + 16 * rs.length = 16 * (rs.length + 1) by ring]
      · omega

end CursorBench

namespace CursorBench

/-! ## Additional helper lemmas for the claims -/

theorem encodeList_take_concat (xs : List MyStruct) (r : MyStruct) :
    (encodeList (xs ++ [r])).take (16 * ((xs ++ [r]).length - 1)) =
      encodeList ((xs ++ [r]).dropLast) := by
  rw [List.dropLast_concat, encodeList_append]
  have h1 : 16 * ((xs ++ [r]).length - 1) = (encodeList xs).length := by
    simp [encodeList_length]
  rw [h1, List.take_left]

/-! ## The claims -/

/-- C1: for every record value, encoding it (`serialize_it` with the
big-endian fixed-int coder) produces exactly 16 bytes of output, the sum
of the field widths 8+4+1+1+2, with no length prefix, tag, or padding:
the output is exactly the concatenation of the five fixed-width field
encodings. -/
theorem c1_encoded_size (s : MyStruct) :
    (serialize_it_wv s ⟨[]⟩).data = encodeMyStruct s ∧
    (encodeMyStruct s).length = 16 ∧
    encodeMyStruct s =
      beBytes 8 s.a ++ beBytes 4 s.b ++ beBytes 1 s.c ++ [boolByte s.d] ++
        beBytes 2 s.e := by
  refine ⟨?_, encodeMyStruct_length s, ?_⟩
  · rw [serialize_it_wv_eq]
    simp
  · simp [encodeMyStruct, fieldChunks, List.append_assoc]

/-- C2: the record built from index 0 has fields a=1, b=2, c=3, d=false,
e=0xAA55, and its encoding is the 16-byte sequence
00 00 00 00 00 00 00 01 | 00 00 00 02 | 03 | 00 | AA 55. -/
theorem c2_record_zero :
    MyStruct.new 0 = ⟨1, 2, 3, false, 0xAA55⟩ ∧
    encodeMyStruct (MyStruct.new 0) =
      [0x00, 0x00, 0x00, 0x00, 0x00, 0x00, 0x00, 0x01,
       0x00, 0x00, 0x00, 0x02, 0x03, 0x00, 0xAA, 0x55] :=
  ⟨rfl, rfl⟩

/-- C5: the record built from index 1 has fields a=2, b=3, c=4, d=true,
e=0xAA55, and its encoding is the 16-byte sequence
00 00 00 00 00 00 00 02 | 00 00 00 03 | 04 | 01 | AA 55. -/
theorem c5_record_one :
    MyStruct.new 1 = ⟨2, 3, 4, true, 0xAA55⟩ ∧
    encodeMyStruct (MyStruct.new 1) =
      [0x00, 0x00, 0x00, 0x00, 0x00, 0x00, 0x00, 0x02,
       0x00, 0x00, 0x00, 0x03, 0x04, 0x01, 0xAA, 0x55] :=
  ⟨rfl, rfl⟩

/-- C9: for every record, byte 13 of the 16-byte encoding is exactly the
boolean byte: 0x01 when `d` is true, 0x00 when `d` is false, and no other
value can appear there. -/
theorem c9_bool_byte (s : MyStruct) :
    (encodeMyStruct s)[13]? = some (boolByte s.d) ∧
    boolByte s.d = (if s.d then 1 else 0) ∧
    (boolByte s.d = 0 ∨ boolByte s.d = 1) := by
  refine ⟨?_, rfl, ?_⟩
  · have hsplit : encodeMyStruct s =
        (beBytes 8 s.a ++ beBytes 4 s.b ++ beBytes 1 s.c) ++
          ([boolByte s.d] ++ beBytes 2 s.e) := by
      simp [encodeMyStruct, fieldChunks, List.append_assoc]
    have hfront : (beBytes 8 s.a ++ beBytes 4 s.b ++ beBytes 1 s.c).length = 13 := by
      simp [beBytes_length]
    rw [hsplit, List.getElem?_append_right (by rw [hfront]), hfront]
    simp
  · cases s.d <;> simp [boolByte]

/-- C10: `MyStruct::new(ii)` computes a = (ii+1) mod 2^64,
b = (ii+2) mod 2^32, c = (ii+3) mod 2^8 (wrapping for ii ≥ 253),
d = true exactly when ii is odd, and e = 0xAA55 always. -/
theorem c10_new_fields (ii : Nat) :
    (MyStruct.new ii).a = (ii + 1) % 2 ^ 64 ∧
    (MyStruct.new ii).b = (ii + 2) % 2 ^ 32 ∧
    (MyStruct.new ii).c = (ii + 3) % 2 ^ 8 ∧
    ((MyStruct.new ii).d = true ↔ ii % 2 = 1) ∧
    (MyStruct.new ii).e = 0xAA55 := by
  refine ⟨?_, ?_, ?_, ?_, rfl⟩
  · show (ii % 2 ^ 64 + 1) % 2 ^ 64 = (ii + 1) % 2 ^ 64
    have h : (2 : Nat) ^ 64 = 18446744073709551616 := by norm_num
    rw [h]
    omega
  · show (ii % 2 ^ 32 + 2) % 2 ^ 32 = (ii + 2) % 2 ^ 32
    have h : (2 : Nat) ^ 32 = 4294967296 := by norm_num
    rw [h]
    omega
  · show (ii % 2 ^ 8 + 3) % 2 ^ 8 = (ii + 3) % 2 ^ 8
    have h : (2 : Nat) ^ 8 = 256 := by norm_num
    rw [h]
    omega
  · show ((ii % 2 != 0) = true ↔ ii % 2 = 1)
    simp only [bne_iff_ne, ne_eq]
    omega

/-- C6: decoding the 8-byte field from offsets 0..8, the 4-byte field
from offsets 8..12 and the 2-byte field from offsets 14..16 of the
encoding, most significant byte first, reproduces a, b and e exactly. -/
theorem c6_bigendian_roundtrip (s : MyStruct) (ha : s.a < 2 ^ 64)
    (hb : s.b < 2 ^ 32) (he : s.e < 2 ^ 16) :
    beValue ((encodeMyStruct s).take 8) = s.a ∧
    beValue (((encodeMyStruct s).drop 8).take 4) = s.b ∧
    beValue (((encodeMyStruct s).drop 14).take 2) = s.e := by
  have henc := encodeMyStruct_eq s
  refine ⟨?_, ?_, ?_⟩
  · rw [henc, List.take_append_of_le_length (by simp [beBytes_length]),
      List.take_of_length_le (by simp [beBytes_length]), beValue_beBytes]
    exact Nat.mod_eq_of_lt (by simpa using ha)
  · have hdrop : (encodeMyStruct s).drop 8 =
        beBytes 4 s.b ++ (beBytes 1 s.c ++ ([boolByte s.d] ++ beBytes 2 s.e)) := by
      rw [henc, List.drop_append_eq_append_drop]
      rw [List.drop_eq_nil_of_le (by simp [beBytes_length])]
      simp [beBytes_length]
    rw [hdrop, List.take_append_of_le_length (by simp [beBytes_length]),
      List.take_of_length_le (by simp [beBytes_length]), beValue_beBytes]
    exact Nat.mod_eq_of_lt (by simpa using hb)
  · have hsplit : encodeMyStruct s =
        (beBytes 8 s.a ++ beBytes 4 s.b ++ beBytes 1 s.c ++ [boolByte s.d]) ++
          beBytes 2 s.e := by
      simp [encodeMyStruct, fieldChunks, List.append_assoc]
    have hdrop : (encodeMyStruct s).drop 14 = beBytes 2 s.e := by
      rw [hsplit, List.drop_append_eq_append_drop]
      rw [List.drop_eq_nil_of_le (by simp [beBytes_length])]
      simp [beBytes_length]
    rw [hdrop, List.take_of_length_le (by simp [beBytes_length]),
      beValue_beBytes]
    exact Nat.mod_eq_of_lt (by simpa using he)

end CursorBench

namespace CursorBench

/-- C7: after writing K ≥ 1 records sequentially into one sink, the sink
holds exactly 16×K bytes (and the position, where the sink has one, is
16×K), and the first 16×(K−1) bytes are exactly the content after writing
the first K−1 records — append-only, position-monotonic, for the
`WriterVec`, `Cursor<Vec<u8>>` and (given sufficient capacity)
`Cursor<&mut [u8]>` sinks. -/
theorem c7_append_only (recs : List MyStruct) (hne : recs ≠ []) :
    ((writeRecordsWV recs ⟨[]⟩).data.length = 16 * recs.length ∧
     (writeRecordsWV recs ⟨[]⟩).data.take (16 * (recs.length - 1)) =
       (writeRecordsWV recs.dropLast ⟨[]⟩).data) ∧
    ((writeRecordsCV recs ⟨[], 0⟩).data.length = 16 * recs.length ∧
     (writeRecordsCV recs ⟨[], 0⟩).pos = 16 * recs.length ∧
     (writeRecordsCV recs ⟨[], 0⟩).data.take (16 * (recs.length - 1)) =
       (writeRecordsCV recs.dropLast ⟨[], 0⟩).data) ∧
    writeRecordsSlice recs ⟨List.replicate (16 * recs.length) 0, 0⟩ =
      .ok ⟨encodeList recs, 16 * recs.length⟩ := by
  have hwv : ∀ l : List MyStruct, (writeRecordsWV l ⟨[]⟩).data = encodeList l := by
    intro l
    rw [writeRecordsWV_eq]
    simp
  have hcv : ∀ l : List MyStruct, writeRecordsCV l ⟨[], 0⟩ =
      ⟨encodeList l, 16 * l.length⟩ := by
    intro l
    have h := writeRecordsCV_eq l []
    simpa using h
  have hslice : writeRecordsSlice recs ⟨List.replicate (16 * recs.length) 0, 0⟩ =
      .ok ⟨encodeList recs, 16 * recs.length⟩ := by
    have h := writeRecordsSlice_ok recs [] (List.replicate (16 * recs.length) 0)
      (by simp)
    simp only [List.nil_append, List.length_nil, Nat.zero_add] at h
    rw [h, List.drop_eq_nil_of_le (by simp)]
    simp
  obtain ⟨xs, r, hconcat⟩ := (List.eq_nil_or_concat recs).resolve_left hne
  rw [List.concat_eq_append] at hconcat
  subst hconcat
  refine ⟨⟨?_, ?_⟩, ⟨?_, ?_, ?_⟩, hslice⟩
  · rw [hwv, encodeList_length]
  · rw [hwv, hwv, encodeList_take_concat]
  · rw [hcv, encodeList_length]
  · rw [hcv]
  · rw [hcv, hcv, List.dropLast_concat, encodeList_take_concat,
      List.dropLast_concat]

/-- C8: encoding the same record sequence into a growable sink
(`WriterVec` or `Cursor<Vec<u8>>`) and into a pre-sized fixed slice of
exact capacity N×16 yields byte-identical final contents; the sink
variant never changes the bytes the encoder produces. -/
theorem c8_backend_equivalence (recs : List MyStruct) :
    writeRecordsSlice recs ⟨List.replicate (16 * recs.length) 0, 0⟩ =
      .ok ⟨(writeRecordsWV recs ⟨[]⟩).data, 16 * recs.length⟩ ∧
    (writeRecordsCV recs ⟨[], 0⟩).data = (writeRecordsWV recs ⟨[]⟩).data := by
  have hwv : (writeRecordsWV recs ⟨[]⟩).data = encodeList recs := by
    rw [writeRecordsWV_eq]
    simp
  constructor
  · have h := writeRecordsSlice_ok recs [] (List.replicate (16 * recs.length) 0)
      (by simp)
    simp only [List.nil_append, List.length_nil, Nat.zero_add] at h
    rw [h, List.drop_eq_nil_of_le (by simp), hwv]
    simp
  · have h := writeRecordsCV_eq recs []
    simp only [List.length_nil, List.nil_append] at h
    rw [h, hwv]

/-- C3 counterexample: on a fixed sink with 8 bytes of space (fewer than
the 16 a record needs) the caller-facing operation `serialize_it` does
not surface a failure result — it panics (the `unwrap` of the bincode
error), modelled by `none`. -/
theorem c3_counterexample :
    serialize_it_slice (MyStruct.new 0) ⟨List.replicate 8 0, 0⟩ = none := by
  rfl

/-- C3 amended: when the remaining space of a fixed-capacity slice sink
is less than 16 bytes, the inner `serialize_into` does fail with the
capacity-exhausted (`WriteZero`) error and the sink's prior content
(the bytes before the write position) is unchanged, but `serialize_it`
unwraps the error and panics — the failure is an abort, not a failure
result returned to the caller; the failing write also appends the
fitting prefix of the record encoding after the prior content. -/
theorem c3_capacity_error_aborts (r : MyStruct) (s : SliceCursor)
    (hp : s.pos ≤ s.buf.length) (h : s.buf.length < s.pos + 16) :
    serializeIntoSlice r s =
      .error ⟨s.buf.take s.pos ++ (encodeMyStruct r).take (s.buf.length - s.pos),
              s.buf.length⟩ ∧
    (s.buf.take s.pos ++
        (encodeMyStruct r).take (s.buf.length - s.pos)).take s.pos =
      s.buf.take s.pos ∧
    serialize_it_slice r s = none := by
  have herr := serializeIntoSlice_err_state r s hp h
  refine ⟨herr, ?_, ?_⟩
  · rw [List.take_append_of_le_length (by simp only [List.length_take]; omega),
      List.take_take, Nat.min_self]
  · rw [serialize_it_slice, herr]
    rfl

/-- C4 counterexample: the encoder is not atomic per record.  Writing the
index-0 record into an empty fixed sink of capacity 12 fails, yet 12
bytes of the record are visible in the sink and the position has advanced
to 12 — contradicting "no partial record bytes and no position advance on
failure". -/
theorem c4_counterexample :
    serializeIntoSlice (MyStruct.new 0) ⟨List.replicate 12 0, 0⟩ =
      .error ⟨[0x00, 0x00, 0x00, 0x00, 0x00, 0x00, 0x00, 0x01,
               0x00, 0x00, 0x00, 0x02], 12⟩ ∧
    (12 : Nat) ≠ 0 ∧
    [0x00, 0x00, 0x00, 0x00, 0x00, 0x00, 0x00, 0x01,
     0x00, 0x00, 0x00, 0x02] ≠ List.replicate 12 (0 : Nat) := by
  refine ⟨rfl, by decide, by decide⟩

/-- C4 amended: the encoder writes field by field with no capacity
precheck, so on failure the partial record is visible: the sink ends up
holding its prior content followed by the fitting prefix of the record's
16-byte encoding (the sink is filled to capacity) and the position has
advanced to the sink's capacity. -/
theorem c4_partial_write_on_failure (r : MyStruct) (s : SliceCursor)
    (hp : s.pos ≤ s.buf.length) (h : s.buf.length < s.pos + 16) :
    serializeIntoSlice r s =
      .error ⟨s.buf.take s.pos ++ (encodeMyStruct r).take (s.buf.length - s.pos),
              s.buf.length⟩ :=
  serializeIntoSlice_err_state r s hp h

end CursorBench

namespace CursorBench

/-- Witness for C6: the index-0 record satisfies the width bounds and the
big-endian round-trip recovers its a, b, e fields. -/
theorem c6_bigendian_roundtrip_witness :
    (MyStruct.new 0).a < 2 ^ 64 ∧ (MyStruct.new 0).b < 2 ^ 32 ∧
    (MyStruct.new 0).e < 2 ^ 16 ∧
    (beValue ((encodeMyStruct (MyStruct.new 0)).take 8) = (MyStruct.new 0).a ∧
     beValue (((encodeMyStruct (MyStruct.new 0)).drop 8).take 4) =
       (MyStruct.new 0).b ∧
     beValue (((encodeMyStruct (MyStruct.new 0)).drop 14).take 2) =
       (MyStruct.new 0).e) :=
  ⟨by decide, by decide, by decide,
   c6_bigendian_roundtrip (MyStruct.new 0) (by decide) (by decide) (by decide)⟩

/-- Witness for C7: the one-record sequence `[MyStruct.new 0]` is
nonempty and satisfies the append-only/length property in all three
modelled sinks. -/
theorem c7_append_only_witness :
    ([MyStruct.new 0] : List MyStruct) ≠ [] ∧
    (((writeRecordsWV [MyStruct.new 0] ⟨[]⟩).data.length =
        16 * [MyStruct.new 0].length ∧
      (writeRecordsWV [MyStruct.new 0] ⟨[]⟩).data.take
          (16 * ([MyStruct.new 0].length - 1)) =
        (writeRecordsWV [MyStruct.new 0].dropLast ⟨[]⟩).data) ∧
     ((writeRecordsCV [MyStruct.new 0] ⟨[], 0⟩).data.length =
        16 * [MyStruct.new 0].length ∧
      (writeRecordsCV [MyStruct.new 0] ⟨[], 0⟩).pos =
        16 * [MyStruct.new 0].length ∧
      (writeRecordsCV [MyStruct.new 0] ⟨[], 0⟩).data.take
          (16 * ([MyStruct.new 0].length - 1)) =
        (writeRecordsCV [MyStruct.new 0].dropLast ⟨[], 0⟩).data) ∧
     writeRecordsSlice [MyStruct.new 0]
         ⟨List.replicate (16 * [MyStruct.new 0].length) 0, 0⟩ =
       .ok ⟨encodeList [MyStruct.new 0], 16 * [MyStruct.new 0].length⟩) :=
  ⟨by decide, c7_append_only [MyStruct.new 0] (by decide)⟩

/-- Witness for the C3 amended theorem: a fixed sink of capacity 5 with
nothing written yet; the inner serialization errors, prior content is
untouched, and `serialize_it` panics (`none`). -/
theorem c3_capacity_error_aborts_witness :
    ((⟨List.replicate 5 9, 0⟩ : SliceCursor).pos ≤
        (⟨List.replicate 5 9, 0⟩ : SliceCursor).buf.length) ∧
    ((⟨List.replicate 5 9, 0⟩ : SliceCursor).buf.length <
        (⟨List.replicate 5 9, 0⟩ : SliceCursor).pos + 16) ∧
    (serializeIntoSlice (MyStruct.new 2) ⟨List.replicate 5 9, 0⟩ =
        .error ⟨(List.replicate 5 (9 : Nat)).take 0 ++
            (encodeMyStruct (MyStruct.new 2)).take
              ((List.replicate 5 (9 : Nat)).length - 0),
          (List.replicate 5 (9 : Nat)).length⟩ ∧
     ((List.replicate 5 (9 : Nat)).take 0 ++
         (encodeMyStruct (MyStruct.new 2)).take
           ((List.replicate 5 (9 : Nat)).length - 0)).take 0 =
       (List.replicate 5 (9 : Nat)).take 0 ∧
     serialize_it_slice (MyStruct.new 2) ⟨List.replicate 5 9, 0⟩ = none) :=
  ⟨by decide, by decide,
   c3_capacity_error_aborts (MyStruct.new 2) ⟨List.replicate 5 9, 0⟩
     (by decide) (by decide)⟩

/-- Witness for the C4 amended theorem: a fixed sink of capacity 20 with
position 5 (15 bytes remaining); serialization fails, leaving the prior
5 bytes followed by the first 15 bytes of the record encoding, with the
position at 20. -/
theorem c4_partial_write_on_failure_witness :
    ((⟨List.replicate 20 0, 5⟩ : SliceCursor).pos ≤
        (⟨List.replicate 20 0, 5⟩ : SliceCursor).buf.length) ∧
    ((⟨List.replicate 20 0, 5⟩ : SliceCursor).buf.length <
        (⟨List.replicate 20 0, 5⟩ : SliceCursor).pos + 16) ∧
    serializeIntoSlice (MyStruct.new 1) ⟨List.replicate 20 0, 5⟩ =
      .error ⟨(List.replicate 20 (0 : Nat)).take 5 ++
          (encodeMyStruct (MyStruct.new 1)).take
            ((List.replicate 20 (0 : Nat)).length - 5),
        (List.replicate 20 (0 : Nat)).length⟩ :=
  ⟨by decide, by decide,
   c4_partial_write_on_failure (MyStruct.new 1) ⟨List.replicate 20 0, 5⟩
     (by decide) (by decide)⟩

end CursorBench
